import Mathlib

/-!
# Verification of the TSS audio core (`src/utils/audio.ts`)

Shallow embedding of the audio subsystem: the PCM decoder
(`decodeAudioData` / `manualPCMDecode`) and the WAV encoder
(`audioBufferToWav`).

Modelling conventions:
* byte sequences (`Uint8Array`, `ArrayBuffer`, the `DataView` output) are
  `List ℕ` with entries `< 256`;
* audio samples (JS `number` / `Float32Array` entries) are `ℚ`; every
  arithmetic step the encoder performs on a sample (clamp, multiply by a
  power-of-two or by 32767, truncate with `| 0`) is modelled exactly;
* fallible operations (`Int16Array` construction on an odd-length buffer,
  the platform container decode) return `Option`;
* the `ArrayBuffer` heap relevant to `decodeAudioData` is an explicit list
  of buffers, so that the copy (`bytes.buffer.slice(0)`) handed to the
  platform primitive is distinguishable from the caller's buffer.
-/

namespace TSS

/-- The canonical in-memory audio representation (`AudioBuffer` in the
source): a channel count, a sample rate, a frame count and per-channel
sample data. -/
structure SampleBuffer where
  channelCount : ℕ
  sampleRate : ℕ
  frameCount : ℕ
  channels : List (List ℚ)
  deriving DecidableEq, Repr

/-- Validity invariant of a `SampleBuffer` (spec §3): positive channel
count, one sample list per channel, each holding exactly `frameCount`
samples. -/
def SampleBuffer.Valid (b : SampleBuffer) : Prop :=
  0 < b.channelCount ∧ b.channels.length = b.channelCount ∧
    ∀ c ∈ b.channels, c.length = b.frameCount

instance (b : SampleBuffer) : Decidable b.Valid :=
  inferInstanceAs (Decidable (_ ∧ _ ∧ _))

/-! ## Decoder (`manualPCMDecode`, `decodeAudioData`) -/

/-- Reinterpret two bytes as a little-endian signed 16-bit integer, as one
entry of `new Int16Array(bytes.buffer)` on a little-endian platform. -/
def int16OfLE (lo hi : ℕ) : ℤ :=
  let u : ℕ := lo % 256 + 256 * (hi % 256)
  if u < 32768 then (u : ℤ) else (u : ℤ) - 65536

/-- The rescale loop of `manualPCMDecode`: each consecutive byte pair,
read as little-endian int16, divided by 32768.0 (exact in ℚ). -/
def pcmSamples : List ℕ → List ℚ
  | lo :: hi :: rest => ((int16OfLE lo hi : ℤ) : ℚ) / 32768 :: pcmSamples rest
  | _ => []

/-- `manualPCMDecode` from the source: assumes 16-bit PCM, 24 kHz, mono.
`new Int16Array(bytes.buffer)` throws a `RangeError` when the byte length
is odd, hence `none` there.  `ctx.createBuffer` and
`buffer.getChannelData(0).set(float32Data)` are modelled from the spec
(§3, §4.1 edge cases) as pure construction of the `SampleBuffer`. -/
def manualPCMDecode (bytes : List ℕ) : Option SampleBuffer :=
  if bytes.length % 2 = 0 then
    some ⟨1, 24000, bytes.length / 2, [pcmSamples bytes]⟩
  else
    none

/-- Heap of `ArrayBuffer`s; a buffer reference is an index into it. -/
abbrev Heap := List (List ℕ)

/-- Modelled from the spec (§5): the platform `audioContext.decodeAudioData`
primitive.  `p` is its (arbitrary) decode behaviour on the bytes it reads;
it detaches / takes ownership of the buffer passed to it, leaving arbitrary
contents `g` in that buffer slot. -/
def platformCall (p : List ℕ → Option SampleBuffer) (g : List ℕ)
    (h : Heap) (ref : ℕ) : Option SampleBuffer × Heap :=
  (p (h.getD ref []), h.set ref g)

/-- `decodeAudioData` from the source, after the base64 step has produced
the byte payload held in buffer `ref` of heap `h`:
`const bufferCopy = bytes.buffer.slice(0)` allocates a fresh buffer holding
a copy of the bytes; the platform primitive is invoked on the copy; on any
error the manual PCM fallback runs on the original bytes.  Returns the
decode result together with the final heap. -/
def decodeAudioDataImpl (p : List ℕ → Option SampleBuffer) (g : List ℕ)
    (h : Heap) (ref : ℕ) : Option SampleBuffer × Heap :=
  let copyRef := h.length
  let h1 := h ++ [h.getD ref []]
  match platformCall p g h1 copyRef with
  | (some b, h2) => (some b, h2)
  | (none, h2) => (manualPCMDecode (h2.getD ref []), h2)

/-! ## Encoder (`audioBufferToWav`) -/

/-- Truncation toward zero of a rational, the integer part of a JS number. -/
def ratTrunc (q : ℚ) : ℤ := q.num.tdiv (q.den : ℤ)

/-- JS `ToInt32` applied to an already-truncated integer: wrap modulo 2^32
into the signed 32-bit range (the `| 0` operation). -/
def toInt32 (z : ℤ) : ℤ := (z + 2 ^ 31) % 2 ^ 32 - 2 ^ 31

/-- The per-sample conversion of the encoder:
`sample = Math.max(-1, Math.min(1, x))` then
`(0.5 + sample < 0 ? sample * 32768 : sample * 32767) | 0`. -/
def convertSample (x : ℚ) : ℤ :=
  let s := max (-1) (min 1 x)
  toInt32 (ratTrunc (if (1 / 2 : ℚ) + s < 0 then s * 32768 else s * 32767))

/-- `view.setUint16(p, v, true)`: write `v` as little-endian 16-bit at
byte offset `p` (extra bits of `v` are discarded, as `DataView` does). -/
def setU16 (a : List ℕ) (p v : ℕ) : List ℕ :=
  (a.set p (v % 256)).set (p + 1) (v / 256 % 256)

/-- `view.setUint32(p, v, true)`: write `v` as little-endian 32-bit at
byte offset `p`. -/
def setU32 (a : List ℕ) (p v : ℕ) : List ℕ :=
  ((((a.set p (v % 256)).set (p + 1) (v / 256 % 256)).set
      (p + 2) (v / 256 / 256 % 256)).set (p + 3) (v / 256 / 256 / 256 % 256))

/-- `view.setInt16(p, v, true)`: the value is reduced modulo 2^16 and
written little-endian. -/
def setInt16 (a : List ℕ) (p : ℕ) (v : ℤ) : List ℕ :=
  setU16 a p (v % 65536).toNat

/-- The header-writing prefix of `audioBufferToWav`: the thirteen
sequential `setUint32` / `setUint16` calls, with the running `pos`
resolved to the explicit offsets 0,4,8,12,16,20,22,24,28,32,34,36,40
(after which `pos = 44`).  The last field is `length - pos - 4` with
`pos = 40`, i.e. `length - 44`. -/
def wavHeaderWrites (numOfChan sampleRate length : ℕ) (a : List ℕ) : List ℕ :=
  let a := setU32 a 0 0x46464952
  let a := setU32 a 4 (length - 8)
  let a := setU32 a 8 0x45564157
  let a := setU32 a 12 0x20746d66
  let a := setU32 a 16 16
  let a := setU16 a 20 1
  let a := setU16 a 22 numOfChan
  let a := setU32 a 24 sampleRate
  let a := setU32 a 28 (sampleRate * 2 * numOfChan)
  let a := setU16 a 32 (numOfChan * 2)
  let a := setU16 a 34 16
  let a := setU32 a 36 0x61746164
  setU32 a 40 (length - 44)

/-- The body of the inner `for (i = 0; i < numOfChan; i++)` loop: clamp
and scale `channels[i][pos]`, then
`view.setInt16(44 + offset, sample, true); offset += 2`.  The state is
the byte array together with `offset`. -/
def frameStep (chans : List (List ℚ)) (pos : ℕ) (st : List ℕ × ℕ)
    (i : ℕ) : List ℕ × ℕ :=
  (setInt16 st.1 (44 + st.2) (convertSample ((chans.getD i []).getD pos 0)),
    st.2 + 2)

/-- The inner `for (i = 0; i < numOfChan; i++)` loop of the data loop. -/
def frameWrite (chans : List (List ℚ)) (numOfChan pos : ℕ)
    (st : List ℕ × ℕ) : List ℕ × ℕ :=
  (List.range numOfChan).foldl (frameStep chans pos) st

/-- The `while (pos < buffer.length) { ...; pos++ }` loop of the encoder.
Note `pos` enters this loop still holding the header byte offset 44 and is
used both as the loop counter and as the frame index `channels[i][pos]`. -/
def dataLoop (chans : List (List ℚ)) (numOfChan len pos off : ℕ)
    (a : List ℕ) : List ℕ :=
  if pos < len then
    let st := frameWrite chans numOfChan pos (a, off)
    dataLoop chans numOfChan len (pos + 1) st.2 st.1
  else
    a
termination_by len - pos
decreasing_by omega

/-- `audioBufferToWav` from the source: allocate a zero-initialised buffer
of `buffer.length * numOfChan * 2 + 44` bytes, write the RIFF/WAVE header,
collect `buffer.getChannelData(i)` for `i < numOfChan`, then run the data
loop starting at `pos = 44`, `offset = 0`. -/
def audioBufferToWav (b : SampleBuffer) : List ℕ :=
  let numOfChan := b.channelCount
  let length := b.frameCount * numOfChan * 2 + 44
  let a := wavHeaderWrites numOfChan b.sampleRate length (List.replicate length 0)
  let channels := (List.range numOfChan).map fun i => b.channels.getD i []
  dataLoop channels numOfChan b.frameCount 44 0 a

/-! ## Spec-side header description (for the refinement claim C2) -/

/-- Little-endian bytes of a 16-bit value, per the spec's header table. -/
def u16le (v : ℕ) : List ℕ := [v % 256, v / 256 % 256]

/-- Little-endian bytes of a 32-bit value, per the spec's header table. -/
def u32le (v : ℕ) : List ℕ :=
  [v % 256, v / 256 % 256, v / 256 / 256 % 256, v / 256 / 256 / 256 % 256]

/-- The 44-byte RIFF/WAVE header exactly as laid out in the spec's table
(§4.2): "RIFF", totalLength − 8, "WAVE", "fmt ", 16, 1, channelCount,
sampleRate, sampleRate × channelCount × 2, channelCount × 2, 16, "data",
totalLength − 44. -/
def riffHeader (channelCount sampleRate frameCount : ℕ) : List ℕ :=
  let totalLength := frameCount * channelCount * 2 + 44
  [0x52, 0x49, 0x46, 0x46] ++ u32le (totalLength - 8) ++
    [0x57, 0x41, 0x56, 0x45] ++
    [0x66, 0x6d, 0x74, 0x20] ++ u32le 16 ++ u16le 1 ++ u16le channelCount ++
    u32le sampleRate ++ u32le (sampleRate * channelCount * 2) ++
    u16le (channelCount * 2) ++ u16le 16 ++
    [0x64, 0x61, 0x74, 0x61] ++ u32le (totalLength - 44)

/-! ## Bounds-checked variant of the encoder

The same algorithm with every memory access made explicit: a `DataView`
write past the end of the buffer and an out-of-range `getChannelData` /
sample read return `none` instead of silently using a default.  It is
proved below (claim C8) to coincide with `audioBufferToWav` on every
valid `SampleBuffer`, which is the shallow-embedding statement that the
encoder never faults and reads/writes only in bounds. -/

/-- `setUint16` with the `DataView` bounds check made explicit. -/
def setU16Checked (a : List ℕ) (p v : ℕ) : Option (List ℕ) :=
  if p + 1 < a.length then some (setU16 a p v) else none

/-- `setUint32` with the `DataView` bounds check made explicit. -/
def setU32Checked (a : List ℕ) (p v : ℕ) : Option (List ℕ) :=
  if p + 3 < a.length then some (setU32 a p v) else none

/-- `setInt16` with the `DataView` bounds check made explicit. -/
def setInt16Checked (a : List ℕ) (p : ℕ) (v : ℤ) : Option (List ℕ) :=
  if p + 1 < a.length then some (setInt16 a p v) else none

/-- The header writes, bounds-checked. -/
def wavHeaderWritesChecked (numOfChan sampleRate length : ℕ)
    (a : List ℕ) : Option (List ℕ) := do
  let a ← setU32Checked a 0 0x46464952
  let a ← setU32Checked a 4 (length - 8)
  let a ← setU32Checked a 8 0x45564157
  let a ← setU32Checked a 12 0x20746d66
  let a ← setU32Checked a 16 16
  let a ← setU16Checked a 20 1
  let a ← setU16Checked a 22 numOfChan
  let a ← setU32Checked a 24 sampleRate
  let a ← setU32Checked a 28 (sampleRate * 2 * numOfChan)
  let a ← setU16Checked a 32 (numOfChan * 2)
  let a ← setU16Checked a 34 16
  let a ← setU32Checked a 36 0x61746164
  setU32Checked a 40 (length - 44)

/-- The inner loop body, with the `channels[i]` and `[pos]` reads and
the `setInt16` write all bounds-checked. -/
def frameStepChecked (chans : List (List ℚ)) (pos : ℕ)
    (st : List ℕ × ℕ) (i : ℕ) : Option (List ℕ × ℕ) := do
  let chan ← chans[i]?
  let x ← chan[pos]?
  let a ← setInt16Checked st.1 (44 + st.2) (convertSample x)
  some (a, st.2 + 2)

/-- The inner loop, bounds-checked. -/
def frameWriteChecked (chans : List (List ℚ)) (numOfChan pos : ℕ)
    (st : List ℕ × ℕ) : Option (List ℕ × ℕ) :=
  (List.range numOfChan).foldlM (frameStepChecked chans pos) st

/-- The data loop, bounds-checked. -/
def dataLoopChecked (chans : List (List ℚ)) (numOfChan len pos off : ℕ)
    (a : List ℕ) : Option (List ℕ) :=
  if pos < len then do
    let st ← frameWriteChecked chans numOfChan pos (a, off)
    dataLoopChecked chans numOfChan len (pos + 1) st.2 st.1
  else
    some a
termination_by len - pos
decreasing_by omega

/-- `audioBufferToWav`, bounds-checked. -/
def audioBufferToWavChecked (b : SampleBuffer) : Option (List ℕ) := do
  let numOfChan := b.channelCount
  let length := b.frameCount * numOfChan * 2 + 44
  let a ← wavHeaderWritesChecked numOfChan b.sampleRate length
    (List.replicate length 0)
  let channels ← (List.range numOfChan).mapM fun i => b.channels[i]?
  dataLoopChecked channels numOfChan b.frameCount 44 0 a

/-! ## Length lemmas -/

theorem length_setU16 (a : List ℕ) (p v : ℕ) :
    (setU16 a p v).length = a.length := by
  simp [setU16]

theorem length_setU32 (a : List ℕ) (p v : ℕ) :
    (setU32 a p v).length = a.length := by
  simp [setU32]

theorem length_setInt16 (a : List ℕ) (p : ℕ) (v : ℤ) :
    (setInt16 a p v).length = a.length := by
  simp [setInt16, setU16]

theorem length_wavHeaderWrites (nc sr L : ℕ) (a : List ℕ) :
    (wavHeaderWrites nc sr L a).length = a.length := by
  simp [wavHeaderWrites, length_setU32, length_setU16]

theorem foldl_frameStep_spec (chans : List (List ℚ)) (pos : ℕ) :
    ∀ (l : List ℕ) (st : List ℕ × ℕ),
      ((l.foldl (frameStep chans pos) st).1.length = st.1.length ∧
        (l.foldl (frameStep chans pos) st).2 = st.2 + 2 * l.length)
  | [], st => by simp
  | i :: l, st => by
    have ih := foldl_frameStep_spec chans pos l (frameStep chans pos st i)
    simp only [List.foldl_cons] at *
    refine ⟨?_, ?_⟩
    · rw [ih.1]; simp [frameStep, length_setInt16]
    · rw [ih.2]; simp [frameStep]; omega

theorem frameWrite_length (chans : List (List ℚ)) (nc pos : ℕ)
    (st : List ℕ × ℕ) :
    (frameWrite chans nc pos st).1.length = st.1.length :=
  (foldl_frameStep_spec chans pos _ st).1

theorem frameWrite_snd (chans : List (List ℚ)) (nc pos : ℕ)
    (st : List ℕ × ℕ) :
    (frameWrite chans nc pos st).2 = st.2 + 2 * nc := by
  have := (foldl_frameStep_spec chans pos (List.range nc) st).2
  simpa using this

theorem length_dataLoop (chans : List (List ℚ)) (nc len : ℕ) :
    ∀ pos off (a : List ℕ),
      (dataLoop chans nc len pos off a).length = a.length := by
  intro pos off a
  induction pos, off, a using dataLoop.induct chans nc len with
  | case1 pos off a h st ih =>
    rw [dataLoop, if_pos h]
    exact ih.trans (frameWrite_length ..)
  | case2 pos off a h => rw [dataLoop, if_neg h]

theorem length_audioBufferToWav (b : SampleBuffer) :
    (audioBufferToWav b).length =
      b.frameCount * b.channelCount * 2 + 44 := by
  unfold audioBufferToWav
  rw [length_dataLoop, length_wavHeaderWrites, List.length_replicate]

/-! ## Prefix-preservation lemmas (the data loop never touches the header) -/

theorem take_set_of_le (a : List ℕ) (i n : ℕ) (v : ℕ) (h : n ≤ i) :
    (a.set i v).take n = a.take n := by
  induction a generalizing i n with
  | nil => simp
  | cons x xs ih =>
    cases n with
    | zero => simp
    | succ n =>
      cases i with
      | zero => omega
      | succ i =>
        show x :: (xs.set i v).take n = x :: xs.take n
        rw [ih i n (by omega)]

theorem take44_setInt16 (a : List ℕ) (p : ℕ) (v : ℤ) (h : 44 ≤ p) :
    (setInt16 a p v).take 44 = a.take 44 := by
  simp [setInt16, setU16, take_set_of_le _ _ _ _ (by omega : 44 ≤ p + 1),
    take_set_of_le _ _ _ _ h]

theorem take44_foldl_frameStep (chans : List (List ℚ)) (pos : ℕ) :
    ∀ (l : List ℕ) (st : List ℕ × ℕ),
      (l.foldl (frameStep chans pos) st).1.take 44 = st.1.take 44
  | [], st => rfl
  | i :: l, st => by
    rw [List.foldl_cons, take44_foldl_frameStep chans pos l]
    exact take44_setInt16 _ _ _ (by omega)

theorem take44_dataLoop (chans : List (List ℚ)) (nc len : ℕ) :
    ∀ pos off (a : List ℕ),
      (dataLoop chans nc len pos off a).take 44 = a.take 44 := by
  intro pos off a
  induction pos, off, a using dataLoop.induct chans nc len with
  | case1 pos off a h st ih =>
    rw [dataLoop, if_pos h]
    exact ih.trans (take44_foldl_frameStep ..)
  | case2 pos off a h => rw [dataLoop, if_neg h]

/-! ## Header write lemmas -/

theorem setU16_chunk (w : List ℕ) (p m v : ℕ) (hp : p = w.length)
    (hm : 2 ≤ m) :
    setU16 (w ++ List.replicate m 0) p v =
      (w ++ u16le v) ++ List.replicate (m - 2) 0 := by
  obtain ⟨k, rfl⟩ : ∃ k, m = 2 + k := ⟨m - 2, by omega⟩
  subst hp
  rw [List.replicate_add]
  simp [setU16, u16le, List.set_append, List.replicate]

theorem setU32_chunk (w : List ℕ) (p m v : ℕ) (hp : p = w.length)
    (hm : 4 ≤ m) :
    setU32 (w ++ List.replicate m 0) p v =
      (w ++ u32le v) ++ List.replicate (m - 4) 0 := by
  obtain ⟨k, rfl⟩ : ∃ k, m = 4 + k := ⟨m - 4, by omega⟩
  subst hp
  rw [List.replicate_add]
  simp [setU32, u32le, List.set_append, List.replicate]

theorem length_riffHeader (nc sr fc : ℕ) :
    (riffHeader nc sr fc).length = 44 := by
  simp [riffHeader, u32le, u16le]

theorem wavHeaderWrites_replicate (nc sr fc : ℕ) :
    wavHeaderWrites nc sr (fc * nc * 2 + 44)
        (List.replicate (fc * nc * 2 + 44) 0) =
      riffHeader nc sr fc ++ List.replicate (fc * nc * 2) 0 := by
  simp only [wavHeaderWrites]
  have h0 : List.replicate (fc * nc * 2 + 44) (0 : ℕ) =
      [] ++ List.replicate (fc * nc * 2 + 44) 0 := rfl
  rw [h0]
  rw [setU32_chunk _ _ _ _ (by simp) (by omega)]
  rw [setU32_chunk _ _ _ _ (by simp [u32le]) (by omega)]
  rw [setU32_chunk _ _ _ _ (by simp [u32le]) (by omega)]
  rw [setU32_chunk _ _ _ _ (by simp [u32le]) (by omega)]
  rw [setU32_chunk _ _ _ _ (by simp [u32le]) (by omega)]
  rw [setU16_chunk _ _ _ _ (by simp [u32le]) (by omega)]
  rw [setU16_chunk _ _ _ _ (by simp [u32le, u16le]) (by omega)]
  rw [setU32_chunk _ _ _ _ (by simp [u32le, u16le]) (by omega)]
  rw [setU32_chunk _ _ _ _ (by simp [u32le, u16le]) (by omega)]
  rw [setU16_chunk _ _ _ _ (by simp [u32le, u16le]) (by omega)]
  rw [setU16_chunk _ _ _ _ (by simp [u32le, u16le]) (by omega)]
  rw [setU32_chunk _ _ _ _ (by simp [u32le, u16le]) (by omega)]
  rw [setU32_chunk _ _ _ _ (by simp [u32le, u16le]) (by omega)]
  have h : sr * 2 * nc = sr * nc * 2 := by ring
  rw [show fc * nc * 2 + 44 - 4 - 4 - 4 - 4 - 4 - 2 - 2 - 4 - 4 - 2 - 2 - 4 - 4
      = fc * nc * 2 by omega]
  simp [riffHeader, u32le, u16le, h, List.append_assoc]

/-- Claim C2: for every SampleBuffer, the first 44 bytes of the encoder's
output follow the fixed little-endian RIFF/WAVE header layout: "RIFF",
totalLength - 8, "WAVE", "fmt ", 16, 1 (integer PCM), channelCount,
sampleRate, sampleRate * channelCount * 2, channelCount * 2, 16, "data",
totalLength - 44. -/
theorem encode_header_layout (b : SampleBuffer) :
    (audioBufferToWav b).take 44 =
      riffHeader b.channelCount b.sampleRate b.frameCount := by
  unfold audioBufferToWav
  rw [take44_dataLoop, wavHeaderWrites_replicate,
    List.take_left' (length_riffHeader ..)]

/-- The encoder on a buffer with at most 44 frames: the data loop never
runs (its counter starts at the leftover header offset 44), so the output
is the header followed by zero bytes only. -/
theorem audioBufferToWav_small (b : SampleBuffer) (h : b.frameCount ≤ 44) :
    audioBufferToWav b =
      riffHeader b.channelCount b.sampleRate b.frameCount ++
        List.replicate (b.frameCount * b.channelCount * 2) 0 := by
  unfold audioBufferToWav
  rw [dataLoop, if_neg (by omega), wavHeaderWrites_replicate]

/-- Claim C3: for every SampleBuffer B, the byte length of the encoder
output is exactly B.frameCount * B.channelCount * 2 + 44. -/
theorem encode_length (b : SampleBuffer) :
    (audioBufferToWav b).length =
      b.frameCount * b.channelCount * 2 + 44 :=
  length_audioBufferToWav b

/-- Claim C7: the manual raw-PCM fallback succeeds on the empty payload
and returns a SampleBuffer with frameCount 0, without any error. -/
theorem manualPCMDecode_empty :
    manualPCMDecode [] = some ⟨1, 24000, 0, [[]]⟩ := by
  decide

/-- Claim C1 (code evaluation): for the one-frame mono buffer with sample
1.0 the code writes no sample at all -- bytes 44-45 of the output stay
0x0000 instead of holding the converted value 32767 of frame 0, because
the data loop starts at frame index 44 (the leftover header offset). -/
theorem encode_first_frame_unwritten :
    (audioBufferToWav ⟨1, 24000, 1, [[1]]⟩).drop 44 = [0, 0] := by
  rw [audioBufferToWav_small _ (by norm_num),
    List.drop_left' (length_riffHeader ..)]
  rfl

/-- Claim C4 (code evaluation): on the spec test vector (24000 Hz mono,
frames [1.0, -1.0, 0.0]) the encoder does produce 50 bytes, but the data
section bytes 44-49 are all zero rather than 0x7FFF / 0x8000 / 0x0000,
since the data loop condition `44 < 3` fails immediately. -/
theorem encode_spec_vector_zero_data :
    (audioBufferToWav ⟨1, 24000, 3, [[1, -1, 0]]⟩).length = 50 ∧
      (audioBufferToWav ⟨1, 24000, 3, [[1, -1, 0]]⟩).drop 44 =
        [0, 0, 0, 0, 0, 0] := by
  refine ⟨?_, ?_⟩
  · rw [length_audioBufferToWav]; rfl
  · rw [audioBufferToWav_small _ (by norm_num),
      List.drop_left' (length_riffHeader ..)]
    rfl

/-- Claim C9: the encoder is deterministic -- two SampleBuffers with equal
channelCount, sampleRate, frameCount and equal per-channel samples encode
to byte-for-byte identical output. -/
theorem encode_deterministic (b1 b2 : SampleBuffer)
    (h1 : b1.channelCount = b2.channelCount)
    (h2 : b1.sampleRate = b2.sampleRate)
    (h3 : b1.frameCount = b2.frameCount)
    (h4 : b1.channels = b2.channels) :
    audioBufferToWav b1 = audioBufferToWav b2 := by
  cases b1
  cases b2
  simp_all

/-- Witness for C9 at two syntactically different but equal buffers
(channel data [2/4] versus [1/2]). -/
theorem encode_deterministic_witness :
    (⟨1, 24000, 1, [[2 / 4]]⟩ : SampleBuffer).channels =
        (⟨1, 24000, 1, [[1 / 2]]⟩ : SampleBuffer).channels ∧
      audioBufferToWav ⟨1, 24000, 1, [[2 / 4]]⟩ =
        audioBufferToWav ⟨1, 24000, 1, [[1 / 2]]⟩ :=
  ⟨by norm_num, encode_deterministic _ _ rfl rfl rfl (by norm_num)⟩

/-! ## Claim C5: the manual PCM fallback on even-length payloads -/

theorem pcmSamples_length : ∀ l : List ℕ, (pcmSamples l).length = l.length / 2
  | [] => rfl
  | [_] => by simp [pcmSamples]
  | _ :: _ :: rest => by
    simp only [pcmSamples, List.length_cons]
    rw [pcmSamples_length rest]
    omega

theorem pcmSamples_getD : ∀ (l : List ℕ) (i : ℕ), 2 * i + 1 < l.length →
    (pcmSamples l).getD i 0 =
      ((int16OfLE (l.getD (2 * i) 0) (l.getD (2 * i + 1) 0) : ℤ) : ℚ) / 32768
  | [], i, h => by simp at h
  | [_], i, h => by simp at h
  | lo :: hi :: rest, 0, _ => by simp [pcmSamples]
  | lo :: hi :: rest, i + 1, h => by
    have h' : 2 * i + 1 < rest.length := by
      simp only [List.length_cons] at h; omega
    have ih := pcmSamples_getD rest i h'
    show (pcmSamples rest).getD i 0 = _
    rw [ih, show 2 * (i + 1) = 2 * i + 1 + 1 by ring,
      show 2 * i + 1 + 1 + 1 = (2 * i + 1) + 1 + 1 by ring]
    rfl

/-- Claim C5: on every even-length payload the manual raw-PCM fallback
yields a mono 24000 Hz SampleBuffer whose frameCount is the number of
byte pairs and whose i-th sample is the i-th little-endian int16 pair
divided by 32768. -/
theorem manualPCMDecode_even (bytes : List ℕ) (h : bytes.length % 2 = 0) :
    ∃ b, manualPCMDecode bytes = some b ∧
      b.channelCount = 1 ∧ b.sampleRate = 24000 ∧
      b.frameCount = bytes.length / 2 ∧
      b.channels = [pcmSamples bytes] ∧
      ∀ i < bytes.length / 2,
        (b.channels.getD 0 []).getD i 0 =
          ((int16OfLE (bytes.getD (2 * i) 0) (bytes.getD (2 * i + 1) 0) : ℤ) : ℚ)
            / 32768 := by
  refine ⟨⟨1, 24000, bytes.length / 2, [pcmSamples bytes]⟩, ?_, rfl, rfl, rfl,
    rfl, ?_⟩
  · simp [manualPCMDecode, h]
  · intro i hi
    show (pcmSamples bytes).getD i 0 = _
    exact pcmSamples_getD bytes i (by omega)

/-- Witness for C5: the 4-byte payload encoding the int16 pair
[16384, -16384] satisfies the hypothesis, and decodes to a mono 24000 Hz
buffer with the two samples [0.5, -0.5]. -/
theorem manualPCMDecode_even_witness :
    ([0, 64, 0, 192] : List ℕ).length % 2 = 0 ∧
      (∃ b, manualPCMDecode [0, 64, 0, 192] = some b ∧
        b.channelCount = 1 ∧ b.sampleRate = 24000 ∧
        b.frameCount = ([0, 64, 0, 192] : List ℕ).length / 2 ∧
        b.channels = [pcmSamples [0, 64, 0, 192]] ∧
        ∀ i < ([0, 64, 0, 192] : List ℕ).length / 2,
          (b.channels.getD 0 []).getD i 0 =
            ((int16OfLE (([0, 64, 0, 192] : List ℕ).getD (2 * i) 0)
                (([0, 64, 0, 192] : List ℕ).getD (2 * i + 1) 0) : ℤ) : ℚ)
              / 32768) ∧
      manualPCMDecode [0, 64, 0, 192] =
        some ⟨1, 24000, 2, [[1 / 2, -(1 / 2)]]⟩ :=
  ⟨by decide, manualPCMDecode_even _ (by decide), by
    simp [manualPCMDecode, pcmSamples, int16OfLE]
    norm_num⟩

/-! ## Claims C6 and C10: the two-strategy decode and its frame effect -/

theorem getD_copy (h : Heap) (ref : ℕ) :
    (h ++ [h.getD ref []]).getD h.length [] = h.getD ref [] := by
  rw [List.getD_append_right _ _ _ _ le_rfl]
  simp

theorem getD_after_platform (h : Heap) (x g : List ℕ) (j : ℕ)
    (hj : j < h.length) :
    ((h ++ [x]).set h.length g).getD j [] = h.getD j [] := by
  have hne : h.length ≠ j := by omega
  simp [List.getD_eq_getElem?_getD, List.getElem?_set, hne,
    List.getElem?_append, hj]

theorem decode_snd_heap (p : List ℕ → Option SampleBuffer) (g : List ℕ)
    (h : Heap) (ref : ℕ) :
    (decodeAudioDataImpl p g h ref).2 =
      (h ++ [h.getD ref []]).set h.length g := by
  simp only [decodeAudioDataImpl, platformCall]
  cases p ((h ++ [h.getD ref []]).getD h.length []) <;> rfl

/-- Claim C6: decode first attempts the platform container decode on the
payload bytes; the manual fallback runs exactly when that attempt errors,
and decode fails only if both strategies fail. -/
theorem decode_two_strategy (p : List ℕ → Option SampleBuffer) (g : List ℕ)
    (h : Heap) (ref : ℕ) (href : ref < h.length) :
    ((decodeAudioDataImpl p g h ref).1 = none ↔
        p (h.getD ref []) = none ∧ manualPCMDecode (h.getD ref []) = none) ∧
      (∀ sb, p (h.getD ref []) = some sb →
        (decodeAudioDataImpl p g h ref).1 = some sb) ∧
      (p (h.getD ref []) = none →
        (decodeAudioDataImpl p g h ref).1 = manualPCMDecode (h.getD ref [])) := by
  have horig := getD_after_platform h (h.getD ref []) g ref href
  simp only [decodeAudioDataImpl, platformCall, getD_copy]
  cases hp : p (h.getD ref []) with
  | none => simp [hp, List.getElem?_append, href]
  | some sb => simp [hp]

/-- Witness for C6: a one-buffer heap holding the empty payload and an
always-failing platform primitive; decode falls back to the manual path. -/
theorem decode_two_strategy_witness :
    (0 : ℕ) < ([[]] : Heap).length ∧
      (((decodeAudioDataImpl (fun _ => none) [9] [[]] 0).1 = none ↔
          (none : Option SampleBuffer) = none ∧
            manualPCMDecode (([[]] : Heap).getD 0 []) = none) ∧
        (∀ sb, (none : Option SampleBuffer) = some sb →
          (decodeAudioDataImpl (fun _ => none) [9] [[]] 0).1 = some sb) ∧
        ((none : Option SampleBuffer) = none →
          (decodeAudioDataImpl (fun _ => none) [9] [[]] 0).1 =
            manualPCMDecode (([[]] : Heap).getD 0 []))) :=
  ⟨by decide, decode_two_strategy (fun _ => none) [9] [[]] 0 (by decide)⟩

/-- Claim C10: decode hands the platform primitive a fresh copy of the
payload buffer, so whatever the primitive does to its argument, every
pre-existing buffer of the caller's heap is unchanged afterwards, and the
manual fallback (run when the primitive fails) reads the original bytes. -/
theorem decode_frame_effect (p : List ℕ → Option SampleBuffer) (g : List ℕ)
    (h : Heap) (ref j : ℕ) (hj : j < h.length) :
    ((decodeAudioDataImpl p g h ref).2).getD j [] = h.getD j [] ∧
      (ref < h.length → p (h.getD ref []) = none →
        (decodeAudioDataImpl p g h ref).1 =
          manualPCMDecode (h.getD ref [])) := by
  constructor
  · rw [decode_snd_heap]
    exact getD_after_platform h _ g j hj
  · intro href hp
    have horig := getD_after_platform h (h.getD ref []) g ref href
    simp only [decodeAudioDataImpl, platformCall, getD_copy]
    rw [hp]
    simp [List.getElem?_append, href]

/-- Witness for C10: a heap with one payload buffer [1, 2]; the platform
primitive fails and scribbles [9] over the buffer it was handed, yet the
caller's buffer still reads [1, 2] and the fallback sees [1, 2]. -/
theorem decode_frame_effect_witness :
    (0 : ℕ) < ([[1, 2]] : Heap).length ∧
      (((decodeAudioDataImpl (fun _ => none) [9] [[1, 2]] 0).2).getD 0 [] =
          ([[1, 2]] : Heap).getD 0 [] ∧
        (0 < ([[1, 2]] : Heap).length →
          (none : Option SampleBuffer) = none →
          (decodeAudioDataImpl (fun _ => none) [9] [[1, 2]] 0).1 =
            manualPCMDecode (([[1, 2]] : Heap).getD 0 []))) :=
  ⟨by decide, decode_frame_effect (fun _ => none) [9] [[1, 2]] 0 0 (by decide)⟩

/-! ## Claim C8: totality of the encoder (bounds-checked refinement) -/

theorem wavHeaderWritesChecked_eq (nc sr L : ℕ) (a : List ℕ)
    (ha : a.length = L) (hL : 44 ≤ L) :
    wavHeaderWritesChecked nc sr L a = some (wavHeaderWrites nc sr L a) := by
  have h3 : 3 < L := by omega
  have h7 : 7 < L := by omega
  have h11 : 11 < L := by omega
  have h15 : 15 < L := by omega
  have h19 : 19 < L := by omega
  have h21 : 21 < L := by omega
  have h23 : 23 < L := by omega
  have h27 : 27 < L := by omega
  have h31 : 31 < L := by omega
  have h33 : 33 < L := by omega
  have h35 : 35 < L := by omega
  have h39 : 39 < L := by omega
  have h43 : 43 < L := by omega
  simp [wavHeaderWritesChecked, wavHeaderWrites, setU32Checked, setU16Checked,
    length_setU32, length_setU16, ha, h3, h7, h11, h15, h19, h21, h23, h27,
    h31, h33, h35, h39, h43]

theorem mapM_getElem (cs : List (List ℚ)) :
    ∀ l : List ℕ, (∀ i ∈ l, i < cs.length) →
      l.mapM (fun i => cs[i]?) = some (l.map fun i => cs.getD i [])
  | [], _ => rfl
  | i :: l, h => by
    have hi : i < cs.length := h i (by simp)
    rw [List.mapM_cons, mapM_getElem cs l (fun j hj => h j (by simp [hj]))]
    simp [List.getElem?_eq_getElem hi, List.getD_eq_getElem _ _ hi]

theorem foldlM_frameStepChecked (chans : List (List ℚ)) (pos : ℕ) :
    ∀ (l : List ℕ) (st : List ℕ × ℕ),
      (∀ i ∈ l, i < chans.length) →
      (∀ i ∈ l, pos < (chans.getD i []).length) →
      44 + st.2 + 2 * l.length ≤ st.1.length →
      l.foldlM (frameStepChecked chans pos) st =
        some (l.foldl (frameStep chans pos) st)
  | [], st, _, _, _ => rfl
  | i :: l, st, h1, h2, h3 => by
    have hi : i < chans.length := h1 i (by simp)
    have hpos : pos < (chans.getD i []).length := h2 i (by simp)
    have hw : 44 + st.2 + 1 < st.1.length := by
      simp only [List.length_cons] at h3; omega
    have hpos' : pos < chans[i].length := by
      rwa [List.getD_eq_getElem _ _ hi] at hpos
    have hstep : frameStepChecked chans pos st i =
        some (frameStep chans pos st i) := by
      simp [frameStepChecked, frameStep, setInt16Checked,
        List.getElem?_eq_getElem hi, List.getD_eq_getElem _ _ hi,
        List.getElem?_eq_getElem hpos', List.getD_eq_getElem _ _ hpos', hw]
    rw [List.foldlM_cons, List.foldl_cons, hstep]
    simp only [Option.bind_eq_bind, Option.some_bind]
    refine foldlM_frameStepChecked chans pos l (frameStep chans pos st i)
      (fun j hj => h1 j (by simp [hj])) (fun j hj => h2 j (by simp [hj])) ?_
    simp only [frameStep, length_setInt16, List.length_cons] at h3 ⊢
    omega

theorem dataLoopChecked_eq (chans : List (List ℚ)) (nc len : ℕ)
    (hc : chans.length = nc) (hlen : ∀ c ∈ chans, c.length = len) :
    ∀ pos off (a : List ℕ), 44 ≤ pos →
      off = (pos - 44) * (nc * 2) →
      a.length = len * nc * 2 + 44 →
      dataLoopChecked chans nc len pos off a =
        some (dataLoop chans nc len pos off a) := by
  intro pos off a
  induction pos, off, a using dataLoop.induct chans nc len with
  | case1 pos off a h st ih =>
    intro h44 hoff ha
    rw [dataLoopChecked, if_pos h, dataLoop, if_pos h]
    have hfw : frameWriteChecked chans nc pos (a, off) =
        some (frameWrite chans nc pos (a, off)) := by
      refine foldlM_frameStepChecked chans pos (List.range nc) (a, off)
        (fun i hi => by rw [hc]; exact List.mem_range.mp hi)
        (fun i hi => ?_) ?_
      · have hi' : i < chans.length := by rw [hc]; exact List.mem_range.mp hi
        rw [List.getD_eq_getElem _ _ hi', hlen _ (List.getElem_mem hi')]
        exact h
      · have hstep : (pos - 44 + 1) * (nc * 2) ≤ len * (nc * 2) :=
          Nat.mul_le_mul_right _ (by omega)
        simp only [List.length_range]
        calc 44 + off + 2 * nc = 44 + (pos - 44 + 1) * (nc * 2) := by
              rw [hoff, Nat.succ_mul]; ring
          _ ≤ 44 + len * (nc * 2) := by omega
          _ = a.length := by rw [ha]; ring
    rw [hfw]
    simp only [Option.bind_eq_bind, Option.some_bind]
    refine ih (by omega) ?_ ?_
    · rw [frameWrite_snd, hoff,
        show pos + 1 - 44 = pos - 44 + 1 by omega, Nat.succ_mul]
      ring
    · rw [frameWrite_length]; exact ha
  | case2 pos off a h =>
    intro _ _ _
    rw [dataLoopChecked, if_neg h, dataLoop, if_neg h]

/-- Claim C8: on every valid SampleBuffer the encoder is total -- the
bounds-checked variant of the encoder (every DataView write, channel
access and sample read checked) succeeds, returns exactly the bytes of
`audioBufferToWav`, and that output is a complete byte sequence of the
stated length. -/
theorem encode_total (b : SampleBuffer) (hb : b.Valid) :
    audioBufferToWavChecked b = some (audioBufferToWav b) ∧
      (audioBufferToWav b).length = b.frameCount * b.channelCount * 2 + 44 := by
  obtain ⟨hpos, hclen, hch⟩ := hb
  refine ⟨?_, length_audioBufferToWav b⟩
  simp only [audioBufferToWavChecked, audioBufferToWav]
  rw [wavHeaderWritesChecked_eq _ _ _ _ (by simp) (by omega)]
  rw [mapM_getElem _ _ (fun i hi => by
    rw [hclen]; exact List.mem_range.mp hi)]
  simp only [Option.bind_eq_bind, Option.some_bind]
  refine dataLoopChecked_eq _ _ _ (by simp) ?_ 44 0 _ le_rfl (by simp) ?_
  · intro c hcm
    obtain ⟨i, hi, rfl⟩ := List.mem_map.mp hcm
    have hi' : i < b.channels.length := by
      rw [hclen]; exact List.mem_range.mp hi
    rw [List.getD_eq_getElem _ _ hi']
    exact hch _ (List.getElem_mem hi')
  · rw [length_wavHeaderWrites, List.length_replicate]

/-- Witness for C8: a concrete valid one-channel buffer. -/
theorem encode_total_witness :
    (SampleBuffer.mk 1 8000 1 [[0]]).Valid ∧
      (audioBufferToWavChecked ⟨1, 8000, 1, [[0]]⟩ =
          some (audioBufferToWav ⟨1, 8000, 1, [[0]]⟩) ∧
        (audioBufferToWav ⟨1, 8000, 1, [[0]]⟩).length = 1 * 1 * 2 + 44) :=
  ⟨by decide, encode_total _ (by decide)⟩

end TSS
